import Mathlib

/-!
Verification of the gitgraph core: a shallow embedding of the record
parser, graph builder, search engine and action catalog/resolver from
crates/gitlg-core and crates/gitgraph-core, with theorems settling the
specification's claims about them.

Rust strings are modelled as `List Char` internally and `String` at
structure boundaries; `i64` is modelled as `Int` with an explicit range
check at parse time; fallible functions return `Except GitLgError`.
-/

namespace GitLg

/-- Characters with the Unicode White_Space property, as tested by Rust's
`char::is_whitespace` (used by `str::trim` and `split_whitespace`). -/
def rustIsWs (c : Char) : Bool :=
  let n := c.toNat
  decide ((9 ≤ n ∧ n ≤ 13) ∨ n = 32 ∨ n = 0x85 ∨ n = 0xA0 ∨ n = 0x1680 ∨
    (0x2000 ≤ n ∧ n ≤ 0x200A) ∨ n = 0x2028 ∨ n = 0x2029 ∨ n = 0x202F ∨
    n = 0x205F ∨ n = 0x3000)

/-- Embeds `trim_matches`-style trimming: drop characters satisfying `p` from both ends. -/
def trimBothWith (p : Char → Bool) (l : List Char) : List Char :=
  ((l.dropWhile p).reverse.dropWhile p).reverse

/-- The characters trimmed around each raw record: `['\r', '\n', ' ']`. -/
def isRecordTrimChar (c : Char) : Bool :=
  c = '\r' || c = '\n' || c = ' '

/-- Split at the first occurrence of `c`: returns the part before and after. -/
def splitFirst (c : Char) : List Char → Option (List Char × List Char)
  | [] => none
  | x :: xs =>
    if x = c then some ([], xs)
    else (splitFirst c xs).map (fun p => (x :: p.1, p.2))

/-- Rust `str::split(c)`: all pieces, empties included. -/
def splitAllChar (c : Char) : List Char → List (List Char)
  | [] => [[]]
  | x :: xs =>
    if x = c then [] :: splitAllChar c xs
    else
      match splitAllChar c xs with
      | [] => [[x]]
      | y :: ys => (x :: y) :: ys

/-- Rust `str::splitn(n, c)`: at most `n` pieces, the last holding the rest. -/
def splitn (n : Nat) (c : Char) (l : List Char) : List (List Char) :=
  match n with
  | 0 => []
  | 1 => [l]
  | m + 2 =>
    match splitFirst c l with
    | none => [l]
    | some (b, a) => b :: splitn (m + 1) c a

/-- The word scan behind `split_whitespace`, carrying the reversed current word. -/
def splitWsGo (acc : List Char) : List Char → List (List Char)
  | [] => if acc = [] then [] else [acc.reverse]
  | c :: cs =>
    if rustIsWs c then
      if acc = [] then splitWsGo [] cs else acc.reverse :: splitWsGo [] cs
    else splitWsGo (c :: acc) cs

/-- Rust `str::split_whitespace`: maximal non-whitespace runs, empties dropped. -/
def splitWsList (l : List Char) : List (List Char) :=
  splitWsGo [] l

/-- Embeds `str::strip_pat` for a literal pattern: drop `pat` from the front if present. -/
def dropPat (pat l : List Char) : Option (List Char) :=
  if pat.isPrefixOf l then some (l.drop pat.length) else none

/-- Embeds `str::split_once(pat)` for a literal pattern. -/
def splitOnceStr (pat : List Char) : List Char → Option (List Char × List Char)
  | [] => if pat.isPrefixOf ([] : List Char) then some ([], []) else none
  | x :: xs =>
    if pat.isPrefixOf (x :: xs) then some ([], (x :: xs).drop pat.length)
    else (splitOnceStr pat xs).map (fun p => (x :: p.1, p.2))

/-- The error enum of `crates/gitlg-core/src/error.rs` (payloads as plain data). -/
inductive GitLgError where
  | Io : String → GitLgError
  | GitCommandFailed : String → List String → Option Int → String → String → GitLgError
  | InvalidRepository : String → GitLgError
  | Parse : String → GitLgError
  | MissingPlaceholder : String → GitLgError
  | State : String → GitLgError
deriving Repr, DecidableEq

deriving instance DecidableEq for Except

/-- ASCII control character 0x1F, the field separator. -/
def FIELD_SEP : Char := Char.ofNat 31

/-- ASCII control character 0x1E, the record separator. -/
def RECORD_SEP : Char := Char.ofNat 30

inductive GitRefKind where
  | Head | LocalBranch | RemoteBranch | Tag | Stash | Other
deriving Repr, DecidableEq

structure GitRef where
  kind : GitRefKind
  name : String
  target : Option String
deriving Repr, DecidableEq

structure RawCommit where
  hash : String
  short_hash : String
  parents : List String
  author_name : String
  author_email : String
  authored_unix : Int
  committed_unix : Int
  refs : List GitRef
  subject : String
  body : String
deriving Repr, DecidableEq

/-- Digit-string value; `none` unless the list is one or more ASCII digits. -/
def digitsVal (l : List Char) : Option Nat :=
  if l = [] then none
  else if l.all (fun c => c.isDigit) then
    some (l.foldl (fun acc c => acc * 10 + (c.toNat - 48)) 0)
  else none

/-- Rust `str::parse::<i64>()`: optional sign, one or more digits, range-checked. -/
def parseI64 (s : String) : Option Int :=
  match s.data with
  | '+' :: rest =>
    (digitsVal rest).bind fun n => if (n : Int) ≤ 2 ^ 63 - 1 then some (n : Int) else none
  | '-' :: rest =>
    (digitsVal rest).bind fun n => if (n : Int) ≤ 2 ^ 63 then some (-(n : Int)) else none
  | l =>
    (digitsVal l).bind fun n => if (n : Int) ≤ 2 ^ 63 - 1 then some (n : Int) else none

/-- Embeds `simplify_ref_name`: strip the first matching standard ref-path namespace. -/
def simplifyRefName (raw : List Char) : List Char :=
  match dropPat "refs/heads/".data raw with
  | some r => r
  | none =>
    match dropPat "refs/remotes/".data raw with
    | some r => r
    | none =>
      match dropPat "refs/tags/".data raw with
      | some r => r
      | none => raw

/-- Embeds `classify_ref`: kind from the full-ref path. -/
def classifyRef (raw : List Char) : GitRefKind :=
  if "refs/heads/".data.isPrefixOf raw then .LocalBranch
  else if "refs/remotes/".data.isPrefixOf raw then .RemoteBranch
  else if "refs/tags/".data.isPrefixOf raw then .Tag
  else if raw = "refs/stash".data then .Stash
  else .Other

/-- Embeds `parse_ref_token`: classify one comma-separated decoration token. -/
def parseRefToken (token : List Char) : GitRef :=
  match splitOnceStr " -> ".data token with
  | some (left, right) =>
    let lt := trimBothWith rustIsWs left
    { kind := if lt = "HEAD".data then GitRefKind.Head else classifyRef lt
      name := String.mk (simplifyRefName lt)
      target := some (String.mk (simplifyRefName (trimBothWith rustIsWs right))) }
  | none =>
    match dropPat "tag: ".data token with
    | some rest =>
      { kind := .Tag
        name := String.mk (simplifyRefName (trimBothWith rustIsWs rest))
        target := none }
    | none =>
      if token = "HEAD".data then { kind := .Head, name := "HEAD", target := none }
      else { kind := classifyRef token, name := String.mk (simplifyRefName token), target := none }

/-- Embeds `parse_refs`: split the decoration string into classified refs. -/
def parseRefs (decorations : List Char) : List GitRef :=
  let cleaned := trimBothWith rustIsWs decorations
  if cleaned = [] then []
  else
    ((((splitAllChar ',' cleaned).map (trimBothWith rustIsWs)).filter
      (fun t => t ≠ [])).map parseRefToken)

/-- One record body of `parse_git_log_records`: split into exactly 10 fields,
parse the two timestamps, split the parents field. (The source indexes
`fields[i]` after checking `fields.len() == 10`; `getD` matches that under
the guard.) -/
def parseRecord (record : List Char) : Except GitLgError RawCommit :=
  let fields := splitn 10 FIELD_SEP record
  if fields.length ≠ 10 then
    .error (.Parse ("expected 10 fields, got " ++ toString fields.length ++ " in record"))
  else
    match parseI64 (String.mk (fields.getD 5 [])) with
    | none => .error (.Parse ("invalid authored unix timestamp " ++ String.mk (fields.getD 5 [])))
    | some authored =>
      match parseI64 (String.mk (fields.getD 6 [])) with
      | none =>
        .error (.Parse ("invalid committed unix timestamp " ++ String.mk (fields.getD 6 [])))
      | some committed =>
        .ok
          { hash := String.mk (fields.getD 0 [])
            short_hash := String.mk (fields.getD 1 [])
            parents :=
              if trimBothWith rustIsWs (fields.getD 2 []) = [] then []
              else (splitWsList (fields.getD 2 [])).map String.mk
            author_name := String.mk (fields.getD 3 [])
            author_email := String.mk (fields.getD 4 [])
            authored_unix := authored
            committed_unix := committed
            refs := parseRefs (fields.getD 7 [])
            subject := String.mk (fields.getD 8 [])
            body := String.mk (fields.getD 9 []) }

/-- The record loop of `parse_git_log_records`: trim each raw record, skip
empties, abort the whole batch at the first record error. -/
def parseRecordsList : List (List Char) → Except GitLgError (List RawCommit)
  | [] => .ok []
  | r :: rs =>
    let record := trimBothWith isRecordTrimChar r
    if record = [] then parseRecordsList rs
    else
      match parseRecord record with
      | .error e => .error e
      | .ok c => (parseRecordsList rs).map (fun cs => c :: cs)

/-- Embeds `parse_git_log_records`: split on the record separator and parse each record. -/
def parseGitLogRecords (stdout : String) : Except GitLgError (List RawCommit) :=
  parseRecordsList (splitAllChar RECORD_SEP stdout.data)

structure GraphEdge where
  to_lane : Nat
  parent_hash : String
deriving Repr, DecidableEq

structure GraphRow where
  hash : String
  short_hash : String
  parents : List String
  author_name : String
  author_email : String
  authored_unix : Int
  committed_unix : Int
  subject : String
  body : String
  refs : List GitRef
  lane : Nat
  active_lane_count : Nat
  edges : List GraphEdge
deriving Repr, DecidableEq

/-- Embeds `iter().enumerate().find(...)`: index of the first element satisfying `p`. -/
def findSlotIdx {α : Type} (p : α → Bool) : List α → Option Nat
  | [] => none
  | x :: xs => if p x then some 0 else (findSlotIdx p xs).map (· + 1)

/-- Embeds `find_or_allocate_lane`: index of the slot already awaiting `hash`, else the
first free slot (filled with `hash`), else a freshly appended slot. -/
def findOrAllocateLane (hash : String) (active_lanes : List (Option String)) :
    Nat × List (Option String) :=
  match findSlotIdx (fun slot => decide (slot = some hash)) active_lanes with
  | some idx => (idx, active_lanes)
  | none =>
    match findSlotIdx (fun slot => decide (slot = none)) active_lanes with
    | some idx => (idx, active_lanes.set idx (some hash))
    | none => (active_lanes.length, active_lanes ++ [some hash])

/-- The enumerated duplicate-collapse scan, carrying the current index. -/
def clearDupAux (hash : String) (lane : Nat) : Nat → List (Option String) → List (Option String)
  | _, [] => []
  | idx, slot :: rest =>
    (if idx ≠ lane ∧ slot = some hash then none else slot) ::
      clearDupAux hash lane (idx + 1) rest

/-- The duplicate-collapse loop of `build_graph_rows`: every slot other than
`lane` that currently awaits `hash` is cleared. -/
def clearOtherDuplicates (hash : String) (lane : Nat) (lanes : List (Option String)) :
    List (Option String) :=
  clearDupAux hash lane 0 lanes

/-- The trailing-free-slot trim of `build_graph_rows` (`while last is none, pop`). -/
def dropTrailingNones : List (Option String) → List (Option String)
  | [] => []
  | x :: xs =>
    match dropTrailingNones xs with
    | [] => if x = none then [] else [x]
    | ys => x :: ys

/-- The merge-parent loop of `build_graph_rows`: each parent beyond the first is
assigned a lane via `find_or_allocate_lane` and recorded as an edge, in order. -/
def allocateMergeParents : List String → List (Option String) →
    List (Option String) × List GraphEdge
  | [], lanes => (lanes, [])
  | p :: ps, lanes =>
    let r1 := findOrAllocateLane p lanes
    let rest := allocateMergeParents ps r1.2
    (rest.1, ⟨r1.1, p⟩ :: rest.2)

/-- One iteration of the `build_graph_rows` loop: choose the commit's lane,
collapse duplicates, write the first-parent expectation (or free the lane),
allocate merge parents, trim trailing free slots, and emit the row. -/
def processCommit (commit : RawCommit) (active_lanes : List (Option String)) :
    GraphRow × List (Option String) :=
  let r := findOrAllocateLane commit.hash active_lanes
  let lane := r.1
  let lanes1 := clearOtherDuplicates commit.hash lane r.2
  match commit.parents with
  | [] =>
    let lanes2 := dropTrailingNones (lanes1.set lane none)
    ({ hash := commit.hash
       short_hash := commit.short_hash
       parents := commit.parents
       author_name := commit.author_name
       author_email := commit.author_email
       authored_unix := commit.authored_unix
       committed_unix := commit.committed_unix
       subject := commit.subject
       body := commit.body
       refs := commit.refs
       lane := lane
       active_lane_count := lanes2.length
       edges := [] }, lanes2)
  | p :: ps =>
    let lanes2 := lanes1.set lane (some p)
    let rm := allocateMergeParents ps lanes2
    let lanes3 := dropTrailingNones rm.1
    ({ hash := commit.hash
       short_hash := commit.short_hash
       parents := commit.parents
       author_name := commit.author_name
       author_email := commit.author_email
       authored_unix := commit.authored_unix
       committed_unix := commit.committed_unix
       subject := commit.subject
       body := commit.body
       refs := commit.refs
       lane := lane
       active_lane_count := lanes3.length
       edges := ⟨lane, p⟩ :: rm.2 }, lanes3)

/-- The `build_graph_rows` loop, threading the active-lane state. -/
def buildGraphRowsAux : List RawCommit → List (Option String) → List GraphRow
  | [], _ => []
  | c :: cs, lanes =>
    let r := processCommit c lanes
    r.1 :: buildGraphRowsAux cs r.2

/-- Embeds `build_graph_rows`: rows with lanes and edges, starting from no active lanes. -/
def buildGraphRows (commits : List RawCommit) : List GraphRow :=
  buildGraphRowsAux commits []

/-- The active-lane state left behind after `build_graph_rows` has processed
the given commits (the internal mutable `active_lanes` vector). -/
def lanesAfter (commits : List RawCommit) : List (Option String) :=
  commits.foldl (fun lanes c => (processCommit c lanes).2) []

/-- Embeds `CommitSearchQuery` from `models.rs`. -/
structure CommitSearchQuery where
  text : String
  case_sensitive : Bool
  use_regex : Bool
  file_path : Option String
  include_hash : Bool
  include_subject : Bool
  include_body : Bool
  include_author : Bool
  include_email : Bool
  include_refs : Bool
deriving Repr, DecidableEq

/-- Substring test (`str::contains` with a string pattern). -/
def containsSub (hay needle : List Char) : Bool :=
  match hay with
  | [] => needle.isPrefixOf []
  | x :: xs => needle.isPrefixOf (x :: xs) || containsSub xs needle

/-- ASCII lowering of one character; stands in for Rust's `to_lowercase`
(identical on ASCII text, which is all the claims exercise). -/
def lowerChar (c : Char) : Char := c.toLower

/-- Embeds `search_parts`: does any enabled field of the row match, short-circuiting. -/
def searchParts (row : GraphRow) (query : CommitSearchQuery) (m : String → Bool) : Bool :=
  if query.include_hash && (m row.hash || m row.short_hash) then true
  else if query.include_subject && m row.subject then true
  else if query.include_body && m row.body then true
  else if query.include_author && m row.author_name then true
  else if query.include_email && m row.author_email then true
  else if query.include_refs then
    row.refs.any (fun gr =>
      m gr.name ||
        (match gr.target with
         | some t => m t
         | none => false))
  else false

/-- Embeds `filter_commits`. The regex engine is the external `regex` crate, modelled
at its interface: `compileRegex needle caseInsensitive` returns `some matcher`
on success and `none` when the pattern is malformed (`RegexBuilder::build`
error, which the code maps to `GitLgError::Parse`). -/
def filterCommits (compileRegex : String → Bool → Option (String → Bool))
    (rows : List GraphRow) (query : CommitSearchQuery) :
    Except GitLgError (List GraphRow) :=
  let needle := String.mk (trimBothWith rustIsWs query.text.data)
  if needle.data = [] then .ok rows
  else if query.use_regex then
    match compileRegex needle (!query.case_sensitive) with
    | none => .error (.Parse ("invalid regex " ++ needle))
    | some re => .ok (rows.filter (fun row => searchParts row query re))
  else if query.case_sensitive then
    .ok (rows.filter (fun row =>
      searchParts row query (fun part => containsSub part.data needle.data)))
  else
    let normalized := needle.data.map lowerChar
    .ok (rows.filter (fun row =>
      searchParts row query (fun part => containsSub (part.data.map lowerChar) normalized)))

inductive ActionScope where
  | Global | BranchDrop | Commit | Commits | Stash | Tag | Branch
deriving Repr, DecidableEq

structure ActionOption where
  id : String
  title : String
  flag : String
  default_active : Bool
  info : Option String
deriving Repr, DecidableEq

structure ActionParam where
  id : String
  default_value : String
  placeholder : Option String
  multiline : Bool
  readonly : Bool
deriving Repr, DecidableEq

structure ActionTemplate where
  id : String
  scope : ActionScope
  title : String
  icon : Option String
  description : String
  info : Option String
  args : List String
  raw_args : String
  shell_script : Bool
  params : List ActionParam
  options : List ActionOption
  immediate : Bool
  ignore_errors : Bool
  allow_non_zero_exit : Bool
deriving Repr, DecidableEq

/-- Placeholder tables model `HashMap<String, String>`: an association list
kept with distinct keys (insertion erases the old binding). -/
abbrev PMap := List (String × String)

def pmGet (m : PMap) (k : String) : Option String :=
  (m.find? (fun kv => decide (kv.1 = k))).map (fun kv => kv.2)

def pmContains (m : PMap) (k : String) : Bool :=
  (pmGet m k).isSome

def pmInsert (m : PMap) (k v : String) : PMap :=
  (k, v) :: m.filter (fun kv => decide (kv.1 ≠ k))

/-- Embeds `HashMap::extend`: insert every pair of `other`, later bindings winning. -/
def pmExtend (m other : PMap) : PMap :=
  other.foldl (fun acc kv => pmInsert acc kv.1 kv.2) m

structure ActionContext where
  branch_display_name : Option String
  branch_name : Option String
  local_branch_name : Option String
  branch_id : Option String
  source_branch_name : Option String
  target_branch_name : Option String
  commit_hash : Option String
  commit_hashes : List String
  commit_body : Option String
  stash_name : Option String
  tag_name : Option String
  remote_name : Option String
  default_remote_name : Option String
  additional_placeholders : PMap
deriving Repr, DecidableEq

def ActionContext.empty : ActionContext :=
  ⟨none, none, none, none, none, none, none, [], none, none, none, none, none, []⟩

def ctxInsertOpt (m : PMap) (k : String) (v : Option String) : PMap :=
  match v with
  | some s => pmInsert m k s
  | none => m

/-- Embeds `ActionContext::to_placeholder_map`. -/
def toPlaceholderMap (ctx : ActionContext) : PMap :=
  let m : PMap := []
  let m := ctxInsertOpt m "BRANCH_DISPLAY_NAME" ctx.branch_display_name
  let m := ctxInsertOpt m "BRANCH_NAME" ctx.branch_name
  let m := ctxInsertOpt m "LOCAL_BRANCH_NAME" ctx.local_branch_name
  let m := ctxInsertOpt m "BRANCH_ID" ctx.branch_id
  let m := ctxInsertOpt m "SOURCE_BRANCH_NAME" ctx.source_branch_name
  let m := ctxInsertOpt m "TARGET_BRANCH_NAME" ctx.target_branch_name
  let m := ctxInsertOpt m "COMMIT_HASH" ctx.commit_hash
  let m :=
    if ctx.commit_hashes ≠ [] then
      pmInsert m "COMMIT_HASHES" (String.intercalate " " ctx.commit_hashes)
    else m
  let m := ctxInsertOpt m "COMMIT_BODY" ctx.commit_body
  let m := ctxInsertOpt m "STASH_NAME" ctx.stash_name
  let m := ctxInsertOpt m "TAG_NAME" ctx.tag_name
  let m := ctxInsertOpt m "REMOTE_NAME" ctx.remote_name
  let m :=
    match ctx.default_remote_name with
    | some v => pmInsert m "DEFAULT_REMOTE_NAME" v
    | none => ctxInsertOpt m "DEFAULT_REMOTE_NAME" ctx.remote_name
  pmExtend m ctx.additional_placeholders

structure ActionRequest where
  template_id : String
  params : PMap
  enabled_options : List String
  context : ActionContext
deriving Repr, DecidableEq

structure ResolvedAction where
  id : String
  title : String
  scope : ActionScope
  args : List String
  shell_script : Option String
  command_line : String
  allow_non_zero_exit : Bool
  ignore_errors : Bool
deriving Repr, DecidableEq

structure ActionCatalog where
  templates : List ActionTemplate
deriving Repr, DecidableEq

/-- The opening and closing brace characters of the placeholder syntax. -/
def lbrace : Char := Char.ofNat 123

def rbrace : Char := Char.ofNat 125

/-- The scanning mode of the `expand_placeholders` character loop: either
plain scanning, inside a `\x7b...\x7d` key (reversed accumulator), or inside a
`$digits` run (reversed accumulator). -/
inductive ExpandMode where
  | normal : ExpandMode
  | inKey : List Char → ExpandMode
  | inDollar : List Char → ExpandMode

/-- Resolve one `\x7b NAME \x7d` key: table first, then the dynamic lookup. -/
def resolveKey (placeholders : PMap) (lookup : String → Except GitLgError (Option String))
    (k : String) : Except GitLgError String :=
  match pmGet placeholders k with
  | some v => .ok v
  | none =>
    match lookup k with
    | .error e => .error e
    | .ok (some v) => .ok v
    | .ok none => .error (.MissingPlaceholder k)

/-- Resolve a finished `$digits` run; an empty run is a literal `$`. -/
def resolveDollar (placeholders : PMap) (acc : List Char) : Except GitLgError (List Char) :=
  if acc = [] then .ok ['$']
  else
    let k := "$" ++ String.mk acc.reverse
    match pmGet placeholders k with
    | some v => .ok v.data
    | none => .error (.MissingPlaceholder k)

/-- The character scan of `expand_placeholders`, written as a state machine
over the source's single peekable-iterator loop (the `input` argument is kept
only for the unterminated-placeholder error message). -/
def expandGo (placeholders : PMap) (lookup : String → Except GitLgError (Option String))
    (input : String) : ExpandMode → List Char → Except GitLgError (List Char)
  | .normal, [] => .ok []
  | .normal, c :: cs =>
    if c = lbrace then expandGo placeholders lookup input (.inKey []) cs
    else if c = '$' then expandGo placeholders lookup input (.inDollar []) cs
    else (expandGo placeholders lookup input .normal cs).map (fun out => c :: out)
  | .inKey _, [] => .error (.Parse ("unterminated placeholder in token " ++ input))
  | .inKey acc, c :: cs =>
    if c = rbrace then
      match resolveKey placeholders lookup (String.mk acc.reverse) with
      | .error e => .error e
      | .ok v => (expandGo placeholders lookup input .normal cs).map (fun out => v.data ++ out)
    else expandGo placeholders lookup input (.inKey (c :: acc)) cs
  | .inDollar acc, [] =>
    match resolveDollar placeholders acc with
    | .error e => .error e
    | .ok v => .ok v
  | .inDollar acc, c :: cs =>
    if c.isDigit then expandGo placeholders lookup input (.inDollar (c :: acc)) cs
    else
      match resolveDollar placeholders acc with
      | .error e => .error e
      | .ok v =>
        if c = lbrace then
          (expandGo placeholders lookup input (.inKey []) cs).map (fun out => v ++ out)
        else if c = '$' then
          (expandGo placeholders lookup input (.inDollar []) cs).map (fun out => v ++ out)
        else
          (expandGo placeholders lookup input .normal cs).map (fun out => v ++ c :: out)

/-- Embeds `expand_placeholders`: substitute `{NAME}` and `$digits` against the table
and the dynamic lookup capability. -/
def expandPlaceholders (input : String) (placeholders : PMap)
    (lookup : String → Except GitLgError (Option String)) : Except GitLgError String :=
  (expandGo placeholders lookup input .normal input.data).map String.mk

/-- Embeds `numeric_placeholder_aliases`: every all-digit key also under `$`-prefix. -/
def numericPlaceholderAliases (values : PMap) : PMap :=
  (values.filter (fun kv => kv.1.data.all (fun c => c.isDigit))).map
    (fun kv => ("$" ++ kv.1, kv.2))

/-- Embeds `sanitize_id_fragment`'s run-collapsing fold. -/
def sanitizeCore : List Char → Bool → List Char
  | [], _ => []
  | c :: cs, prevDash =>
    if c.isAlphanum then c :: sanitizeCore cs false
    else if prevDash then sanitizeCore cs true
    else '-' :: sanitizeCore cs true

/-- Embeds `sanitize_id_fragment`: lowercase, collapse non-alphanumeric runs to one
hyphen, trim hyphens. -/
def sanitizeIdFragment (text : String) : String :=
  String.mk (trimBothWith (fun c => c = '-') (sanitizeCore (text.data.map lowerChar) false))

/-- Embeds `shlex`-with-fallback tokenization of a raw argument string. The `shlex`
crate is external; its splitter is injected as `shlexSplit`, returning `none`
on unbalanced quoting (the code then falls back to whitespace splitting). -/
def tokenizeArgs (shlexSplit : String → Option (List String)) (args : String) : List String :=
  if trimBothWith rustIsWs args.data = [] then []
  else
    match shlexSplit args with
    | some tokens => tokens
    | none => (splitWsList args.data).map String.mk

/-- Embeds `is_shell_script`: the raw argument string contains `&&`, `||` or `;`. -/
def isShellScript (raw_args : String) : Bool :=
  containsSub raw_args.data "&&".data || containsSub raw_args.data "||".data ||
    raw_args.data.contains ';'

def strEndsWith (s suffix : String) : Bool :=
  suffix.data.reverse.isPrefixOf s.data.reverse

def strStartsWith (s pre : String) : Bool :=
  pre.data.isPrefixOf s.data

/-- Embeds `str::eq_ignore_ascii_case`. -/
def eqIgnoreAsciiCase (a b : String) : Bool :=
  decide (a.data.map lowerChar = b.data.map lowerChar)

def boolNat (b : Bool) : Nat := if b then 1 else 0

/-- Strict lexicographic comparison of equal-shaped numeric key vectors
(Rust's derived tuple `Ord`, with `false < true` encoded through `boolNat`). -/
def ltLex : List Nat → List Nat → Bool
  | [], [] => false
  | [], _ :: _ => true
  | _ :: _, [] => false
  | a :: as, b :: bs => if a < b then true else if a = b then ltLex as bs else false

/-- Rust tuple order on `(shell_script, params.len(), args.len())`. -/
def ltKey3 (a b : Bool × Nat × Nat) : Bool :=
  ltLex [boolNat a.1, a.2.1, a.2.2] [boolNat b.1, b.2.1, b.2.2]

/-- Rust tuple order on `(missing, shell_script, params.len(), args.len())`. -/
def ltKey4 (a b : Nat × Bool × Nat × Nat) : Bool :=
  ltLex [a.1, boolNat a.2.1, a.2.2.1, a.2.2.2] [b.1, boolNat b.2.1, b.2.2.1, b.2.2.2]

/-- Embeds `Iterator::min_by_key`: the first element whose key is minimal. -/
def minByKeyFirst {α K : Type} (lt : K → K → Bool) (key : α → K) : List α → Option α
  | [] => none
  | x :: xs => some (xs.foldl (fun best y => if lt (key y) (key best) then y else best) x)

/-- The tie-breaking key of `ActionCatalog::find`. -/
def findTieKey (t : ActionTemplate) : Bool × Nat × Nat :=
  (t.shell_script, t.params.length, t.args.length)

/-- Stage-one fallback candidates of `find`: ids ending in `:<id>`. -/
def findSuffixCands (catalog : ActionCatalog) (id : String) : List ActionTemplate :=
  catalog.templates.filter (fun t => strEndsWith t.id (":" ++ id))

/-- Stage-two fallback candidates of `find`: slugified title equal to `<id>`. -/
def findTitleCands (catalog : ActionCatalog) (id : String) : List ActionTemplate :=
  catalog.templates.filter (fun t => decide (sanitizeIdFragment t.title = id))

/-- Stage-three fallback candidates of `find`: first argument token equal to
`<id>` up to ASCII case. -/
def findArgCands (catalog : ActionCatalog) (id : String) : List ActionTemplate :=
  catalog.templates.filter (fun t =>
    match t.args.head? with
    | some command => eqIgnoreAsciiCase command id
    | none => false)

/-- Embeds `ActionCatalog::find`: exact id, then (for scope-free ids) suffix match,
slugified-title equality, first-argument match; each fallback stage takes the
minimum by `(shell_script, params.len(), args.len())`. -/
def findTemplate (catalog : ActionCatalog) (id : String) : Option ActionTemplate :=
  match catalog.templates.find? (fun t => decide (t.id = id)) with
  | some t => some t
  | none =>
    if id.data.contains ':' then none
    else
      match minByKeyFirst ltKey3 findTieKey (findSuffixCands catalog id) with
      | some t => some t
      | none =>
        match minByKeyFirst ltKey3 findTieKey (findTitleCands catalog id) with
        | some t => some t
        | none => minByKeyFirst ltKey3 findTieKey (findArgCands catalog id)

/-- The parameter-default loop of `resolve_with_lookup`: for each template
parameter not bound under its id or `$`-prefixed alias, expand its default
value; a MissingPlaceholder failure falls back to the raw default, any other
failure aborts. -/
def applyParamDefaults (lookup : String → Except GitLgError (Option String)) :
    List ActionParam → PMap → Except GitLgError PMap
  | [], tbl => .ok tbl
  | p :: rest, tbl =>
    if pmContains tbl p.id || pmContains tbl ("$" ++ p.id) then
      applyParamDefaults lookup rest tbl
    else
      match expandPlaceholders p.default_value tbl lookup with
      | .ok v => applyParamDefaults lookup rest (pmInsert tbl p.id v)
      | .error (GitLgError.MissingPlaceholder _) =>
        applyParamDefaults lookup rest (pmInsert tbl p.id p.default_value)
      | .error e => .error e

/-- Whether a template option is enabled by the request (by id, by flag text,
or active by default). -/
def optionEnabled (request : ActionRequest) (o : ActionOption) : Bool :=
  request.enabled_options.contains o.id || request.enabled_options.contains o.flag ||
    o.default_active

/-- The enabled-option token loop of `resolve_with_lookup` step 6. -/
def optionTokens (shlexSplit : String → Option (List String)) (request : ActionRequest)
    (tbl : PMap) (lookup : String → Except GitLgError (Option String)) :
    List ActionOption → Except GitLgError (List String)
  | [] => .ok []
  | o :: os =>
    if optionEnabled request o then
      match (tokenizeArgs shlexSplit o.flag).mapM (fun t => expandPlaceholders t tbl lookup) with
      | .error e => .error e
      | .ok toks =>
        match optionTokens shlexSplit request tbl lookup os with
        | .error e => .error e
        | .ok more => .ok (toks ++ more)
    else optionTokens shlexSplit request tbl lookup os

/-- The shell-script command-line suffix loop of `resolve_with_lookup` step 7. -/
def appendEnabledOptionFlags (request : ActionRequest) (tbl : PMap)
    (lookup : String → Except GitLgError (Option String)) (acc : String) :
    List ActionOption → Except GitLgError String
  | [] => .ok acc
  | o :: os =>
    if optionEnabled request o then
      match expandPlaceholders o.flag tbl lookup with
      | .error e => .error e
      | .ok expanded =>
        appendEnabledOptionFlags request tbl lookup
          (if expanded.data = [] then acc else acc ++ " " ++ expanded) os
    else appendEnabledOptionFlags request tbl lookup acc os

/-- Embeds `ActionCatalog::resolve_with_lookup`. -/
def resolveWithLookup (shlexSplit : String → Option (List String)) (catalog : ActionCatalog)
    (request : ActionRequest) (lookup : String → Except GitLgError (Option String)) :
    Except GitLgError ResolvedAction :=
  match findTemplate catalog request.template_id with
  | none => .error (.State ("unknown action template id: " ++ request.template_id))
  | some template =>
    match applyParamDefaults lookup template.params
      (pmExtend (toPlaceholderMap request.context) request.params) with
    | .error e => .error e
    | .ok tbl1 =>
      let tbl := pmExtend tbl1 (numericPlaceholderAliases tbl1)
      match template.args.mapM (fun t => expandPlaceholders t tbl lookup) with
      | .error e => .error e
      | .ok argsBase =>
        match optionTokens shlexSplit request tbl lookup template.options with
        | .error e => .error e
        | .ok optToks =>
          let args := argsBase ++ optToks
          let base :=
            if template.shell_script then expandPlaceholders template.raw_args tbl lookup
            else .ok (String.intercalate " " args)
          match base with
          | .error e => .error e
          | .ok baseLine =>
            let commandLine :=
              if template.shell_script then
                appendEnabledOptionFlags request tbl lookup baseLine template.options
              else .ok baseLine
            match commandLine with
            | .error e => .error e
            | .ok cl =>
              .ok
                { id := template.id
                  title := template.title
                  scope := template.scope
                  args := args
                  shell_script := if template.shell_script then some cl else none
                  command_line := cl
                  allow_non_zero_exit := template.allow_non_zero_exit
                  ignore_errors := template.ignore_errors }

/-- The scan behind `regexCaptures`: `none` while outside a group, `some acc`
(reversed) while inside one. -/
def regexCapturesGo : Option (List Char) → List Char → List (List Char)
  | none, [] => []
  | none, c :: cs =>
    if c = lbrace then regexCapturesGo (some []) cs else regexCapturesGo none cs
  | some _, [] => []
  | some acc, c :: cs =>
    if c = rbrace then
      if acc = [] then regexCapturesGo none cs
      else acc.reverse :: regexCapturesGo none cs
    else regexCapturesGo (some (c :: acc)) cs

/-- The `\x7b([^\x7d]+)\x7d` capture scan of `choose_template_for_short_id`:
leftmost non-empty brace groups, in order. -/
def regexCaptures (l : List Char) : List (List Char) :=
  regexCapturesGo none l

/-- The scored text of a candidate: argument tokens joined by spaces, the raw
argument string, and every parameter default value. -/
def checkText (t : ActionTemplate) : String :=
  String.intercalate " " t.args ++ " " ++ t.raw_args ++
    String.join (t.params.map (fun p => " " ++ p.default_value))

/-- How many placeholder occurrences of the candidate are unsatisfiable from
`available`, the dynamic `GIT_CONFIG:`/`GIT_EXEC:` namespaces excluded. -/
def missingCount (available : PMap) (t : ActionTemplate) : Nat :=
  ((regexCaptures (checkText t).data).filter (fun cap =>
    let name := String.mk cap
    !(strStartsWith name "GIT_CONFIG:" || strStartsWith name "GIT_EXEC:") &&
      !pmContains available name)).length

/-- The staged candidate narrowing of `choose_template_for_short_id`. -/
def candidatesForShortId (catalog : ActionCatalog) (short_id : String) :
    List ActionTemplate :=
  let c1 := catalog.templates.filter (fun t => strEndsWith t.id (":" ++ short_id))
  if c1 ≠ [] then c1
  else
    let c2 := catalog.templates.filter (fun t =>
      let title := sanitizeIdFragment t.title
      decide (title = short_id) || strStartsWith title (short_id ++ "-"))
    if c2 ≠ [] then c2
    else
      catalog.templates.filter (fun t =>
        match t.args.head? with
        | some cmd => eqIgnoreAsciiCase cmd short_id
        | none => false)

/-- The scoring key of `choose_template_for_short_id`. -/
def shortIdKey (available : PMap) (t : ActionTemplate) : Nat × Bool × Nat × Nat :=
  (missingCount available t, t.shell_script, t.params.length, t.args.length)

/-- Embeds `choose_template_for_short_id` from `gitgraph-core/src/service.rs`. -/
def chooseTemplateForShortId (catalog : ActionCatalog) (short_id : String)
    (context : ActionContext) (params : PMap) : Option String :=
  let candidates := candidatesForShortId catalog short_id
  if candidates = [] then none
  else
    let available := pmExtend (toPlaceholderMap context) params
    (minByKeyFirst ltKey4 (shortIdKey available) candidates).map (fun t => t.id)

/-- The ten commit-record fields of a `RawCommit`, as one tuple. -/
def commitCore (c : RawCommit) :
    String × String × List String × String × String × Int × Int × String × String ×
      List GitRef :=
  (c.hash, c.short_hash, c.parents, c.author_name, c.author_email, c.authored_unix,
    c.committed_unix, c.subject, c.body, c.refs)

/-- The same ten fields of a `GraphRow` (everything but lane data). -/
def rowCore (r : GraphRow) :
    String × String × List String × String × String × Int × Int × String × String ×
      List GitRef :=
  (r.hash, r.short_hash, r.parents, r.author_name, r.author_email, r.authored_unix,
    r.committed_unix, r.subject, r.body, r.refs)

/-- A commit literal used by the concrete instances below. -/
def mkc (h : String) (ps : List String) : RawCommit :=
  { hash := h, short_hash := h, parents := ps, author_name := "A", author_email := "a@e",
    authored_unix := 1, committed_unix := 2, refs := [], subject := "s", body := "b" }

/-- A graph row literal used by the concrete instances below. -/
def mkr (h : String) (ps : List String) (lanev cnt : Nat) (es : List GraphEdge) : GraphRow :=
  { hash := h, short_hash := h, parents := ps, author_name := "A", author_email := "a@e",
    authored_unix := 1, committed_unix := 2, refs := [], subject := "s", body := "b",
    lane := lanev, active_lane_count := cnt, edges := es }

/-- A template literal used by the concrete instances below. -/
def mkt (idv title : String) (argsv : List String) (sh : Bool) (ps : List ActionParam) :
    ActionTemplate :=
  { id := idv, scope := .Global, title := title, icon := none, description := "", info := none,
    args := argsv, raw_args := String.intercalate " " argsv, shell_script := sh, params := ps,
    options := [], immediate := false, ignore_errors := false, allow_non_zero_exit := false }

/-- "No two distinct currently active slots await the same hash." -/
def noDuplicateActiveHashes (lanes : List (Option String)) : Prop :=
  ∀ i j v, i ≠ j → lanes.get? i = some (some v) → lanes.get? j = some (some v) → False

/-- A single record carrying eleven field-separator-delimited fields
(ten separators): the spec says any count other than ten is a parse error. -/
def elevenFieldInput : String :=
  "h\u001Fs\u001F\u001FA\u001Fa@e\u001F12\u001F34\u001F\u001Fsubj\u001FbodyA\u001Fextra"

/-- What the code actually produces for `elevenFieldInput`: the eleventh field
is folded into the body, separator included. -/
def elevenFieldParsed : RawCommit :=
  { hash := "h", short_hash := "s", parents := [], author_name := "A",
    author_email := "a@e", authored_unix := 12, committed_unix := 34, refs := [],
    subject := "subj", body := "bodyA\u001Fextra" }

/-- A search query fixture: blank needle, every flag left in its default
`CommitSearchQuery` state except the ones set per claim. -/
def blankQuery : CommitSearchQuery :=
  { text := " \t  ", case_sensitive := true, use_regex := true, file_path := none,
    include_hash := true, include_subject := true, include_body := true,
    include_author := true, include_email := true, include_refs := true }

/-- A search query fixture with a regex needle. -/
def regexQuery : CommitSearchQuery :=
  { text := "(unbalanced", case_sensitive := false, use_regex := true, file_path := none,
    include_hash := true, include_subject := true, include_body := true,
    include_author := true, include_email := true, include_refs := true }

/-- A two-template catalog whose ids both end in `:merge`, one shell-script. -/
def mergeCat : ActionCatalog :=
  ⟨[mkt "a:1:merge" "M1" ["git"] true [], mkt "b:2:merge" "M2" ["git", "y"] false []]⟩

/-- The spec's short-id scoring scenario: two `:merge` templates, one needing
`SOURCE_BRANCH_NAME` and `TARGET_BRANCH_NAME`, the other only `BRANCH_NAME`. -/
def scoreCat : ActionCatalog :=
  ⟨[mkt "branch:1:merge" "m1"
      ["git", "merge", "{SOURCE_BRANCH_NAME}", "{TARGET_BRANCH_NAME}"] false [],
    mkt "branch:2:merge" "m2" ["git", "merge", "{BRANCH_NAME}"] false []]⟩

/-- A context populating only `BRANCH_NAME`. -/
def branchOnlyCtx : ActionContext :=
  { ActionContext.empty with branch_name := some "main" }

/-! ### Lemmas about the graph builder -/

theorem findSlotIdx_lt {α : Type} {p : α → Bool} :
    ∀ {l : List α} {i : Nat}, findSlotIdx p l = some i → i < l.length := by
  intro l
  induction l with
  | nil => intro i h; simp [findSlotIdx] at h
  | cons x xs ih =>
    intro i h
    simp only [findSlotIdx] at h
    by_cases hpx : p x
    · rw [if_pos hpx] at h
      cases h
      simp
    · rw [if_neg hpx] at h
      cases hm : findSlotIdx p xs with
      | none => rw [hm] at h; simp at h
      | some j =>
        rw [hm] at h
        simp only [Option.map_some', Option.some.injEq] at h
        subst h
        have := ih hm
        simp only [List.length_cons]
        omega

theorem findSlotIdx_get {α : Type} {p : α → Bool} :
    ∀ {l : List α} {i : Nat}, findSlotIdx p l = some i →
      ∃ a, l.get? i = some a ∧ p a = true := by
  intro l
  induction l with
  | nil => intro i h; simp [findSlotIdx] at h
  | cons x xs ih =>
    intro i h
    simp only [findSlotIdx] at h
    by_cases hpx : p x
    · rw [if_pos hpx] at h
      cases h
      exact ⟨x, rfl, hpx⟩
    · rw [if_neg hpx] at h
      cases hm : findSlotIdx p xs with
      | none => rw [hm] at h; simp at h
      | some j =>
        rw [hm] at h
        simp only [Option.map_some', Option.some.injEq] at h
        subst h
        obtain ⟨a, hg, hp⟩ := ih hm
        exact ⟨a, by simpa using hg, hp⟩

theorem findOrAllocateLane_fst_lt (hsh : String) (lanes : List (Option String)) :
    (findOrAllocateLane hsh lanes).1 < (findOrAllocateLane hsh lanes).2.length := by
  unfold findOrAllocateLane
  cases h1 : findSlotIdx (fun slot => decide (slot = some hsh)) lanes with
  | some idx => simpa using findSlotIdx_lt h1
  | none =>
    cases h2 : findSlotIdx (fun slot => decide (slot = none)) lanes with
    | some idx =>
      have := findSlotIdx_lt h2
      simpa [List.length_set] using this
    | none => simp

theorem findOrAllocateLane_preserves_some (hsh : String) (lanes : List (Option String))
    {i : Nat} {v : String} (hg : lanes.get? i = some (some v)) :
    ((findOrAllocateLane hsh lanes).2).get? i = some (some v) := by
  unfold findOrAllocateLane
  cases h1 : findSlotIdx (fun slot => decide (slot = some hsh)) lanes with
  | some idx => simpa using hg
  | none =>
    cases h2 : findSlotIdx (fun slot => decide (slot = none)) lanes with
    | some idx =>
      obtain ⟨a, hga, hpa⟩ := findSlotIdx_get h2
      have ha : a = none := by simpa using hpa
      subst ha
      have hne : idx ≠ i := by
        intro he
        subst he
        rw [hg] at hga
        cases hga
      rw [List.get?_set_ne (some hsh) lanes hne]
      exact hg
    | none =>
      have hi : i < lanes.length := by
        by_contra hge
        rw [List.get?_eq_none.mpr (by omega)] at hg
        cases hg
      rw [List.get?_append hi]
      exact hg

theorem clearDupAux_length (hsh : String) (lane : Nat) :
    ∀ (l : List (Option String)) (idx : Nat), (clearDupAux hsh lane idx l).length = l.length := by
  intro l
  induction l with
  | nil => intro idx; simp [clearDupAux]
  | cons x xs ih => intro idx; simp [clearDupAux, ih]

theorem clearDupAux_get (hsh : String) (lane : Nat) :
    ∀ (l : List (Option String)) (idx i : Nat),
      (clearDupAux hsh lane idx l).get? i =
        (l.get? i).map (fun slot => if idx + i ≠ lane ∧ slot = some hsh then none else slot) := by
  intro l
  induction l with
  | nil => intro idx i; simp [clearDupAux]
  | cons x xs ih =>
    intro idx i
    cases i with
    | zero => simp [clearDupAux]
    | succ i =>
      have heq : idx + 1 + i = idx + (i + 1) := by omega
      simpa [clearDupAux, heq] using ih (idx + 1) i

theorem dropTrailingNones_keeps :
    ∀ (l : List (Option String)) (i : Nat) (v : String),
      l.get? i = some (some v) → i < (dropTrailingNones l).length := by
  intro l
  induction l with
  | nil => intro i v h; simp at h
  | cons x xs ih =>
    intro i v h
    cases i with
    | zero =>
      have hx : x = some v := by simpa using h
      subst hx
      simp only [dropTrailingNones]
      cases hys : dropTrailingNones xs with
      | nil => simp
      | cons y ys => simp
    | succ i =>
      have h' : xs.get? i = some (some v) := by simpa using h
      have hlt := ih i v h'
      cases hys : dropTrailingNones xs with
      | nil => rw [hys] at hlt; simp at hlt
      | cons y ys =>
        rw [hys] at hlt
        simp only [dropTrailingNones, hys]
        simp only [List.length_cons] at hlt ⊢
        omega

theorem allocateMergeParents_preserves_some :
    ∀ (ps : List String) (lanes : List (Option String)) {i : Nat} {v : String},
      lanes.get? i = some (some v) →
      ((allocateMergeParents ps lanes).1).get? i = some (some v) := by
  intro ps
  induction ps with
  | nil => intro lanes i v h; simpa [allocateMergeParents] using h
  | cons p ps ih =>
    intro lanes i v h
    simp only [allocateMergeParents]
    exact ih _ (findOrAllocateLane_preserves_some p lanes h)

theorem allocateMergeParents_edges_map :
    ∀ (ps : List String) (lanes : List (Option String)),
      ((allocateMergeParents ps lanes).2).map (fun e => e.parent_hash) = ps := by
  intro ps
  induction ps with
  | nil => intro lanes; simp [allocateMergeParents]
  | cons p ps ih => intro lanes; simp [allocateMergeParents, ih]

theorem processCommit_rowCore (c : RawCommit) (lanes : List (Option String)) :
    rowCore (processCommit c lanes).1 = commitCore c := by
  cases hp : c.parents <;> simp [processCommit, hp, rowCore, commitCore]

theorem processCommit_parents (c : RawCommit) (lanes : List (Option String)) :
    (processCommit c lanes).1.parents = c.parents := by
  cases hp : c.parents <;> simp [processCommit, hp]

theorem processCommit_lane_lt (c : RawCommit) (lanes : List (Option String))
    (hp : c.parents ≠ []) :
    (processCommit c lanes).1.lane < (processCommit c lanes).1.active_lane_count := by
  cases hpp : c.parents with
  | nil => exact absurd hpp hp
  | cons p ps =>
    have h1 := findOrAllocateLane_fst_lt c.hash lanes
    have h2 : (findOrAllocateLane c.hash lanes).1 <
        (clearOtherDuplicates c.hash (findOrAllocateLane c.hash lanes).1
          (findOrAllocateLane c.hash lanes).2).length := by
      rw [clearOtherDuplicates, clearDupAux_length]
      exact h1
    have h3 : ((clearOtherDuplicates c.hash (findOrAllocateLane c.hash lanes).1
          (findOrAllocateLane c.hash lanes).2).set (findOrAllocateLane c.hash lanes).1
          (some p)).get? (findOrAllocateLane c.hash lanes).1 = some (some p) :=
      List.get?_set_eq_of_lt _ h2
    have h4 := allocateMergeParents_preserves_some ps _ h3
    have h5 := dropTrailingNones_keeps _ _ _ h4
    simpa [processCommit, hpp] using h5

theorem mem_buildGraphRowsAux {P : GraphRow → Prop}
    (hstep : ∀ c lanes, P (processCommit c lanes).1) :
    ∀ (cs : List RawCommit) (lanes : List (Option String)) (row : GraphRow),
      row ∈ buildGraphRowsAux cs lanes → P row := by
  intro cs
  induction cs with
  | nil => intro lanes row h; simp [buildGraphRowsAux] at h
  | cons c cs ih =>
    intro lanes row h
    simp only [buildGraphRowsAux, List.mem_cons] at h
    rcases h with h | h
    · subst h
      exact hstep _ _
    · exact ih _ _ h

/-- C2 counterexample: a parentless commit frees its own lane and the trailing
trim empties the slot list, so its row has `lane = 0` and
`active_lane_count = 0`, violating `lane < active_lane_count`. -/
theorem c2_counterexample :
    ¬ (∀ commits : List RawCommit, ∀ row ∈ buildGraphRows commits,
        row.lane < row.active_lane_count) := by
  intro hclaim
  have h1 : mkr "r" [] 0 0 [] ∈ buildGraphRows [mkc "r" []] := by decide
  exact absurd (hclaim [mkc "r" []] _ h1) (by decide)

/-- C2 (amended): every row whose commit has at least one parent satisfies
`lane < active_lane_count`; a parentless commit's row can have
`active_lane_count ≤ lane` because its lane is freed and trailing free slots
are trimmed before the count is recorded. -/
theorem c2_lane_lt_active_of_parents (commits : List RawCommit) :
    ∀ row ∈ buildGraphRows commits, row.parents ≠ [] →
      row.lane < row.active_lane_count :=
  mem_buildGraphRowsAux
    (P := fun row => row.parents ≠ [] → row.lane < row.active_lane_count)
    (fun c lanes hp =>
      processCommit_lane_lt c lanes (by rwa [processCommit_parents] at hp))
    commits []

theorem c2_witness :
    (mkr "a" ["p"] 0 1 [⟨0, "p"⟩]).parents ≠ [] ∧
      (mkr "a" ["p"] 0 1 [⟨0, "p"⟩]).lane < (mkr "a" ["p"] 0 1 [⟨0, "p"⟩]).active_lane_count :=
  ⟨by decide,
    c2_lane_lt_active_of_parents [mkc "a" ["p"]] (mkr "a" ["p"] 0 1 [⟨0, "p"⟩])
      (by decide) (by decide)⟩

/-- C3 counterexample: two commits sharing the same first parent leave that
parent's hash awaited in two distinct active slots, so "no two distinct
currently active slots hold the same awaited hash" fails as an invariant of
the per-row step relation. -/
theorem c3_counterexample :
    ¬ (∀ commits : List RawCommit, noDuplicateActiveHashes (lanesAfter commits)) := by
  intro hclaim
  exact hclaim [mkc "a" ["p"], mkc "b" ["p"]] 0 1 "p" (by decide) (by decide) (by decide)

/-- C3 (amended): the duplicate collapse holds at lane-assignment time — right
after a commit's lane is chosen and other slots holding its hash are cleared,
no slot other than the chosen lane awaits that hash.  (Between rows the
invariant can fail: writing the first-parent expectation may duplicate a hash
already awaited elsewhere, as the counterexample shows.) -/
theorem c3_collapse_unique (hash : String) (lanes : List (Option String)) (i : Nat)
    (hne : i ≠ (findOrAllocateLane hash lanes).1) :
    (clearOtherDuplicates hash (findOrAllocateLane hash lanes).1
        (findOrAllocateLane hash lanes).2).get? i ≠ some (some hash) := by
  rw [clearOtherDuplicates, clearDupAux_get]
  cases hgi : ((findOrAllocateLane hash lanes).2).get? i with
  | none => simp
  | some slot =>
    simp only [Option.map_some']
    by_cases hs : slot = some hash
    · rw [if_pos ⟨by simpa using hne, hs⟩]
      simp
    · rw [if_neg (by simp [hs])]
      simp [hs]

theorem c3_witness :
    (1 ≠ (findOrAllocateLane "h" [some "h", some "h"]).1) ∧
      (clearOtherDuplicates "h" (findOrAllocateLane "h" [some "h", some "h"]).1
          (findOrAllocateLane "h" [some "h", some "h"]).2).get? 1 ≠ some (some "h") :=
  ⟨by decide, c3_collapse_unique "h" [some "h", some "h"] 1 (by decide)⟩

theorem processCommit_edges (c : RawCommit) (lanes : List (Option String)) :
    (processCommit c lanes).1.edges.map (fun e => e.parent_hash) =
        (processCommit c lanes).1.parents ∧
      ((processCommit c lanes).1.parents ≠ [] →
        ((processCommit c lanes).1.edges.head?).map (fun e => e.to_lane) =
          some (processCommit c lanes).1.lane) := by
  cases hp : c.parents with
  | nil => constructor <;> simp [processCommit, hp]
  | cons p ps =>
    constructor
    · simp [processCommit, hp, allocateMergeParents_edges_map]
    · intro _
      simp [processCommit, hp]

/-- C7: each row carries exactly one edge per parent, in parent order (the
edge list's parent hashes are the parent list), and when there is at least
one parent the first edge targets the commit's own lane. -/
theorem c7_edges_per_parent (commits : List RawCommit) :
    ∀ row ∈ buildGraphRows commits,
      row.edges.map (fun e => e.parent_hash) = row.parents ∧
        (row.parents ≠ [] →
          (row.edges.head?).map (fun e => e.to_lane) = some row.lane) :=
  mem_buildGraphRowsAux
    (P := fun row =>
      row.edges.map (fun e => e.parent_hash) = row.parents ∧
        (row.parents ≠ [] →
          (row.edges.head?).map (fun e => e.to_lane) = some row.lane))
    (fun c lanes => processCommit_edges c lanes) commits []

theorem c7_witness :
    (mkr "m" ["p1", "p2"] 0 2 [⟨0, "p1"⟩, ⟨1, "p2"⟩]).edges.map (fun e => e.parent_hash) =
        (mkr "m" ["p1", "p2"] 0 2 [⟨0, "p1"⟩, ⟨1, "p2"⟩]).parents ∧
      ((mkr "m" ["p1", "p2"] 0 2 [⟨0, "p1"⟩, ⟨1, "p2"⟩]).parents ≠ [] →
        ((mkr "m" ["p1", "p2"] 0 2 [⟨0, "p1"⟩, ⟨1, "p2"⟩]).edges.head?).map
            (fun e => e.to_lane) =
          some (mkr "m" ["p1", "p2"] 0 2 [⟨0, "p1"⟩, ⟨1, "p2"⟩]).lane) :=
  c7_edges_per_parent [mkc "m" ["p1", "p2"]]
    (mkr "m" ["p1", "p2"] 0 2 [⟨0, "p1"⟩, ⟨1, "p2"⟩]) (by decide)

theorem buildGraphRowsAux_map_core :
    ∀ (cs : List RawCommit) (lanes : List (Option String)),
      (buildGraphRowsAux cs lanes).map rowCore = cs.map commitCore := by
  intro cs
  induction cs with
  | nil => intro lanes; simp [buildGraphRowsAux]
  | cons c cs ih =>
    intro lanes
    simp [buildGraphRowsAux, ih, processCommit_rowCore]

/-- C10: `build_graph_rows` yields one row per commit, in input order, and
copies all ten commit-record fields unchanged — only `lane`,
`active_lane_count` and `edges` are added. -/
theorem c10_frame (commits : List RawCommit) :
    (buildGraphRows commits).map rowCore = commits.map commitCore := by
  unfold buildGraphRows
  exact buildGraphRowsAux_map_core commits []

/-! ### Lemmas about the record parser -/

theorem parseRecord_error_parse {r : List Char} {e : GitLgError}
    (h : parseRecord r = .error e) : ∃ msg, e = .Parse msg := by
  simp only [parseRecord] at h
  split at h
  · cases h
    exact ⟨_, rfl⟩
  · split at h
    · cases h
      exact ⟨_, rfl⟩
    · split at h
      · cases h
        exact ⟨_, rfl⟩
      · cases h

theorem parseRecord_badcount {r : List Char}
    (hbad : (splitn 10 FIELD_SEP r).length ≠ 10) :
    ∃ msg, parseRecord r = .error (.Parse msg) := by
  refine ⟨"expected 10 fields, got " ++ toString (splitn 10 FIELD_SEP r).length ++
    " in record", ?_⟩
  simp only [parseRecord]
  rw [if_pos hbad]

theorem parseRecordsList_error_of_bad :
    ∀ rs : List (List Char),
      (∃ r ∈ rs, trimBothWith isRecordTrimChar r ≠ [] ∧
        (splitn 10 FIELD_SEP (trimBothWith isRecordTrimChar r)).length ≠ 10) →
      ∃ msg, parseRecordsList rs = .error (.Parse msg) := by
  intro rs
  induction rs with
  | nil => intro h; simp at h
  | cons r rest ih =>
    intro h
    simp only [parseRecordsList]
    by_cases htrim : trimBothWith isRecordTrimChar r = []
    · rw [if_pos htrim]
      apply ih
      rcases h with ⟨r', hr', hne, hbad⟩
      rcases List.mem_cons.mp hr' with he | hm
      · subst he
        exact absurd htrim hne
      · exact ⟨r', hm, hne, hbad⟩
    · rw [if_neg htrim]
      cases hp : parseRecord (trimBothWith isRecordTrimChar r) with
      | error e =>
        obtain ⟨msg, hmsg⟩ := parseRecord_error_parse hp
        subst hmsg
        exact ⟨msg, rfl⟩
      | ok c =>
        rcases h with ⟨r', hr', hne, hbad⟩
        rcases List.mem_cons.mp hr' with he | hm
        · subst he
          obtain ⟨msg, hmsg⟩ := parseRecord_badcount hbad
          rw [hp] at hmsg
          cases hmsg
        · obtain ⟨msg, hmsg⟩ := ih ⟨r', hm, hne, hbad⟩
          refine ⟨msg, ?_⟩
          rw [hmsg]
          rfl

/-- C1 counterexample: a trimmed-non-empty record with eleven field-separator
delimited fields is not rejected — `splitn(10, ..)` folds the surplus into the
tenth (body) field, so the batch parses successfully. -/
theorem c1_counterexample :
    (splitAllChar FIELD_SEP elevenFieldInput.data).length = 11 ∧
      trimBothWith isRecordTrimChar elevenFieldInput.data ≠ [] ∧
      parseGitLogRecords elevenFieldInput = .ok [elevenFieldParsed] := by
  refine ⟨by decide, by decide, ?_⟩
  decide

/-- C1 (amended): a record that after trimming is non-empty and splits into
fewer than ten fields (fewer than nine separators) makes
`parse_git_log_records` fail the whole batch with a Parse error; records with
more than nine separators are instead accepted, the surplus text kept inside
the tenth (body) field. -/
theorem c1_few_fields_abort (stdout : String)
    (h : ∃ r ∈ splitAllChar RECORD_SEP stdout.data,
      trimBothWith isRecordTrimChar r ≠ [] ∧
      (splitn 10 FIELD_SEP (trimBothWith isRecordTrimChar r)).length ≠ 10) :
    ∃ msg, parseGitLogRecords stdout = .error (.Parse msg) := by
  have := parseRecordsList_error_of_bad (splitAllChar RECORD_SEP stdout.data) h
  simpa [parseGitLogRecords] using this

theorem c1_witness :
    (∃ r ∈ splitAllChar RECORD_SEP ("a\u001Fb" : String).data,
        trimBothWith isRecordTrimChar r ≠ [] ∧
        (splitn 10 FIELD_SEP (trimBothWith isRecordTrimChar r)).length ≠ 10) ∧
      ∃ msg, parseGitLogRecords "a\u001Fb" = .error (.Parse msg) :=
  ⟨by decide, c1_few_fields_abort "a\u001Fb" (by decide)⟩

/-! ### The search engine -/

/-- C8: a needle that trims to nothing disables filtering — `filter_commits`
succeeds and returns the input rows unchanged, whatever the other flags and
whatever the regex engine would do. -/
theorem c8_blank_needle_identity (compileRegex : String → Bool → Option (String → Bool))
    (rows : List GraphRow) (query : CommitSearchQuery)
    (h : trimBothWith rustIsWs query.text.data = []) :
    filterCommits compileRegex rows query = .ok rows := by
  simp [filterCommits, h]

theorem c8_witness :
    trimBothWith rustIsWs blankQuery.text.data = [] ∧
      filterCommits (fun _ _ => none) [mkr "a" [] 0 0 []] blankQuery =
        .ok [mkr "a" [] 0 0 []] :=
  ⟨by decide,
    c8_blank_needle_identity (fun _ _ => none) [mkr "a" [] 0 0 []] blankQuery (by decide)⟩

/-- C9: with `use_regex` set and a non-blank needle, a pattern the regex
engine rejects makes `filter_commits` fail with a Parse error (never a
result); a pattern it accepts is compiled with case-insensitivity exactly
when `case_sensitive` is unset, and filtering uses that matcher. -/
theorem c9_regex_error_surfaced (compileRegex : String → Bool → Option (String → Bool))
    (rows : List GraphRow) (query : CommitSearchQuery)
    (h1 : query.use_regex = true)
    (h2 : trimBothWith rustIsWs query.text.data ≠ []) :
    (compileRegex (String.mk (trimBothWith rustIsWs query.text.data))
        (!query.case_sensitive) = none →
      ∃ msg, filterCommits compileRegex rows query = .error (.Parse msg)) ∧
    (∀ re, compileRegex (String.mk (trimBothWith rustIsWs query.text.data))
        (!query.case_sensitive) = some re →
      filterCommits compileRegex rows query =
        .ok (rows.filter (fun row => searchParts row query re))) := by
  constructor
  · intro hc
    refine ⟨"invalid regex " ++ String.mk (trimBothWith rustIsWs query.text.data), ?_⟩
    simp [filterCommits, h1, h2, hc]
  · intro re hc
    simp [filterCommits, h1, h2, hc]

theorem c9_witness :
    regexQuery.use_regex = true ∧
      trimBothWith rustIsWs regexQuery.text.data ≠ [] ∧
      ∃ msg, filterCommits (fun _ _ => none) [] regexQuery = .error (.Parse msg) :=
  ⟨by decide, by decide,
    (c9_regex_error_surfaced (fun _ _ => none) [] regexQuery (by decide) (by decide)).1 rfl⟩

/-! ### Order lemmas for the `min_by_key` stages -/

theorem ltLex_irrefl : ∀ a : List Nat, ltLex a a = false := by
  intro a
  induction a with
  | nil => rfl
  | cons x xs ih => simp [ltLex, ih]

theorem ltLex_trans : ∀ a b c : List Nat,
    ltLex a b = true → ltLex b c = true → ltLex a c = true := by
  intro a
  induction a with
  | nil =>
    intro b c hab hbc
    cases b with
    | nil => simp [ltLex] at hab
    | cons y ys =>
      cases c with
      | nil => simp [ltLex] at hbc
      | cons z zs => simp [ltLex]
  | cons x xs ih =>
    intro b c hab hbc
    cases b with
    | nil => simp [ltLex] at hab
    | cons y ys =>
      cases c with
      | nil => simp [ltLex] at hbc
      | cons z zs =>
        simp only [ltLex] at hab hbc ⊢
        by_cases hxy : x < y
        · by_cases hyz : y < z
          · have hxz : x < z := by omega
            simp [hxz]
          · by_cases hyz2 : y = z
            · subst hyz2
              simp [hxy]
            · simp [hyz, hyz2] at hbc
        · by_cases hxy2 : x = y
          · subst hxy2
            have hab' : ltLex xs ys = true := by simpa [hxy] using hab
            by_cases hyz : x < z
            · simp [hyz]
            · by_cases hyz2 : x = z
              · subst hyz2
                have hbc' : ltLex ys zs = true := by simpa [hyz] using hbc
                simp [hyz, ih ys zs hab' hbc']
              · simp [hyz, hyz2] at hbc
          · simp [hxy, hxy2] at hab

theorem ltLex_ntrans : ∀ a b c : List Nat,
    ltLex a b = false → ltLex b c = false → ltLex a c = false := by
  intro a
  induction a with
  | nil =>
    intro b c hab hbc
    cases b with
    | nil =>
      cases c with
      | nil => rfl
      | cons z zs => simp [ltLex] at hbc
    | cons y ys => simp [ltLex] at hab
  | cons x xs ih =>
    intro b c hab hbc
    cases c with
    | nil => cases xs <;> rfl
    | cons z zs =>
      cases b with
      | nil => simp [ltLex] at hbc
      | cons y ys =>
        simp only [ltLex] at hab hbc ⊢
        by_cases hxy : x < y
        · simp [hxy] at hab
        · by_cases hyz : y < z
          · simp [hyz] at hbc
          · by_cases hxy2 : x = y
            · subst hxy2
              have hab' : ltLex xs ys = false := by simpa [hxy] using hab
              by_cases hyz2 : x = z
              · subst hyz2
                have hbc' : ltLex ys zs = false := by simpa [hyz] using hbc
                simp [hyz, ih ys zs hab' hbc']
              · simp [hyz, hyz2]
            · by_cases hyz2 : y = z
              · subst hyz2
                simp [hxy, hxy2]
              · have hxz : ¬ x < z := by omega
                have hxz2 : x ≠ z := by omega
                simp [hxz, hxz2]

theorem ltKey3_irrefl (k : Bool × Nat × Nat) : ltKey3 k k = false :=
  ltLex_irrefl _

theorem ltKey3_trans (a b c : Bool × Nat × Nat) :
    ltKey3 a b = true → ltKey3 b c = true → ltKey3 a c = true :=
  ltLex_trans _ _ _

theorem ltKey3_ntrans (a b c : Bool × Nat × Nat) :
    ltKey3 a b = false → ltKey3 b c = false → ltKey3 a c = false :=
  ltLex_ntrans _ _ _

theorem ltKey4_irrefl (k : Nat × Bool × Nat × Nat) : ltKey4 k k = false :=
  ltLex_irrefl _

theorem ltKey4_trans (a b c : Nat × Bool × Nat × Nat) :
    ltKey4 a b = true → ltKey4 b c = true → ltKey4 a c = true :=
  ltLex_trans _ _ _

theorem ltKey4_ntrans (a b c : Nat × Bool × Nat × Nat) :
    ltKey4 a b = false → ltKey4 b c = false → ltKey4 a c = false :=
  ltLex_ntrans _ _ _

theorem foldlMinAux {α K : Type} (lt : K → K → Bool) (key : α → K)
    (hirr : ∀ k, lt k k = false)
    (htrans : ∀ k1 k2 k3, lt k1 k2 = true → lt k2 k3 = true → lt k1 k3 = true)
    (hntrans : ∀ k1 k2 k3, lt k1 k2 = false → lt k2 k3 = false → lt k1 k3 = false) :
    ∀ (xs : List α) (x : α),
      (xs.foldl (fun best y => if lt (key y) (key best) then y else best) x) ∈ x :: xs ∧
        ∀ u ∈ x :: xs,
          lt (key u)
            (key (xs.foldl (fun best y => if lt (key y) (key best) then y else best) x)) =
            false := by
  intro xs
  induction xs with
  | nil =>
    intro x
    constructor
    · simp
    · intro u hu
      simp at hu
      subst hu
      simp [hirr]
  | cons y ys ih =>
    intro x
    by_cases hxy : lt (key y) (key x) = true
    · have hstep : (List.foldl (fun best y => if lt (key y) (key best) then y else best) x
          (y :: ys)) =
          List.foldl (fun best y => if lt (key y) (key best) then y else best) y ys := by
        simp [List.foldl, hxy]
      rw [hstep]
      obtain ⟨hm, hall⟩ := ih y
      constructor
      · rcases List.mem_cons.mp hm with he | hm'
        · rw [he]
          exact List.mem_cons.mpr (Or.inr (List.mem_cons.mpr (Or.inl rfl)))
        · exact List.mem_cons.mpr (Or.inr (List.mem_cons.mpr (Or.inr hm')))
      · intro u hu
        rcases List.mem_cons.mp hu with hux | hu'
        · subst hux
          by_contra hcon
          rw [Bool.not_eq_false] at hcon
          have h1 := hall y (List.mem_cons.mpr (Or.inl rfl))
          rw [htrans _ _ _ hxy hcon] at h1
          cases h1
        · exact hall u hu'
    · have hxy' : lt (key y) (key x) = false := by
        rwa [Bool.not_eq_true] at hxy
      have hstep : (List.foldl (fun best y => if lt (key y) (key best) then y else best) x
          (y :: ys)) =
          List.foldl (fun best y => if lt (key y) (key best) then y else best) x ys := by
        simp [List.foldl, hxy']
      rw [hstep]
      obtain ⟨hm, hall⟩ := ih x
      constructor
      · rcases List.mem_cons.mp hm with he | hm'
        · rw [he]
          exact List.mem_cons.mpr (Or.inl rfl)
        · exact List.mem_cons.mpr (Or.inr (List.mem_cons.mpr (Or.inr hm')))
      · intro u hu
        rcases List.mem_cons.mp hu with hux | hu'
        · subst hux
          exact hall u (List.mem_cons.mpr (Or.inl rfl))
        · rcases List.mem_cons.mp hu' with huy | hu''
          · subst huy
            exact hntrans _ _ _ hxy' (hall x (List.mem_cons.mpr (Or.inl rfl)))
          · exact hall u (List.mem_cons.mpr (Or.inr hu''))

theorem minByKeyFirst_spec {α K : Type} (lt : K → K → Bool) (key : α → K)
    (hirr : ∀ k, lt k k = false)
    (htrans : ∀ k1 k2 k3, lt k1 k2 = true → lt k2 k3 = true → lt k1 k3 = true)
    (hntrans : ∀ k1 k2 k3, lt k1 k2 = false → lt k2 k3 = false → lt k1 k3 = false)
    (l : List α) (m : α) (hm : minByKeyFirst lt key l = some m) :
    m ∈ l ∧ ∀ u ∈ l, lt (key u) (key m) = false := by
  cases l with
  | nil => simp [minByKeyFirst] at hm
  | cons x xs =>
    simp only [minByKeyFirst, Option.some.injEq] at hm
    subst hm
    exact foldlMinAux lt key hirr htrans hntrans xs x

theorem minByKeyFirst_eq_none {α K : Type} (lt : K → K → Bool) (key : α → K)
    (l : List α) : minByKeyFirst lt key l = none ↔ l = [] := by
  cases l <;> simp [minByKeyFirst]

/-! ### The action catalog and resolver -/

/-- C4 counterexample: `find`'s title stage matches slug equality only.  For a
catalog whose sole template has title slug `foo-bar` (which starts with
`foo-`), looking up `foo` — no scope prefix, no exact match, no `:foo` id
suffix, first argument `git` — returns `none`, though the claim's title stage
(slug equals `foo` or starts with `foo-`) would have selected it. -/
theorem c4_counterexample :
    strStartsWith
        (sanitizeIdFragment (mkt "global:1:foo-bar" "Foo Bar" ["git", "x"] false []).title)
        ("foo" ++ "-") = true ∧
      findTemplate ⟨[mkt "global:1:foo-bar" "Foo Bar" ["git", "x"] false []]⟩ "foo" =
        none := by
  exact ⟨by decide, by decide⟩

/-- C4 (amended): for a scope-free id with no exact match, `find` tries — in
order — templates whose id ends in `:<id>`, templates whose slugified title
EQUALS `<id>` (no `<id>-` prefix match; that exists only in the short-id
chooser), then templates whose first argument token equals `<id>` up to ASCII
case; each stage returns a candidate minimal under
`(shell_script, params.len(), args.len())`. -/
theorem c4_find_staged (catalog : ActionCatalog) (id : String)
    (hns : id.data.contains ':' = false)
    (hnx : ∀ t ∈ catalog.templates, t.id ≠ id) :
    (findSuffixCands catalog id ≠ [] →
      ∃ t, findTemplate catalog id = some t ∧ t ∈ findSuffixCands catalog id ∧
        ∀ u ∈ findSuffixCands catalog id,
          ltKey3 (findTieKey u) (findTieKey t) = false) ∧
    (findSuffixCands catalog id = [] → findTitleCands catalog id ≠ [] →
      ∃ t, findTemplate catalog id = some t ∧ t ∈ findTitleCands catalog id ∧
        ∀ u ∈ findTitleCands catalog id,
          ltKey3 (findTieKey u) (findTieKey t) = false) ∧
    (findSuffixCands catalog id = [] → findTitleCands catalog id = [] →
      findArgCands catalog id ≠ [] →
      ∃ t, findTemplate catalog id = some t ∧ t ∈ findArgCands catalog id ∧
        ∀ u ∈ findArgCands catalog id,
          ltKey3 (findTieKey u) (findTieKey t) = false) ∧
    (findSuffixCands catalog id = [] → findTitleCands catalog id = [] →
      findArgCands catalog id = [] → findTemplate catalog id = none) := by
  have hfind : catalog.templates.find? (fun t => decide (t.id = id)) = none := by
    rw [List.find?_eq_none]
    intro x hx
    simp [hnx x hx]
  have hred : findTemplate catalog id =
      (match minByKeyFirst ltKey3 findTieKey (findSuffixCands catalog id) with
       | some t => some t
       | none =>
         match minByKeyFirst ltKey3 findTieKey (findTitleCands catalog id) with
         | some t => some t
         | none => minByKeyFirst ltKey3 findTieKey (findArgCands catalog id)) := by
    have hns' : ':' ∉ id.data := by simpa using hns
    simp [findTemplate, hfind, hns']
  refine ⟨?_, ?_, ?_, ?_⟩
  · intro hne
    cases h1 : minByKeyFirst ltKey3 findTieKey (findSuffixCands catalog id) with
    | none => exact absurd ((minByKeyFirst_eq_none _ _ _).mp h1) hne
    | some t =>
      obtain ⟨hmem, hall⟩ :=
        minByKeyFirst_spec ltKey3 findTieKey ltKey3_irrefl ltKey3_trans ltKey3_ntrans _ t h1
      refine ⟨t, ?_, hmem, hall⟩
      rw [hred, h1]
  · intro hs hne
    have h1 : minByKeyFirst ltKey3 findTieKey (findSuffixCands catalog id) = none :=
      (minByKeyFirst_eq_none _ _ _).mpr hs
    cases h2 : minByKeyFirst ltKey3 findTieKey (findTitleCands catalog id) with
    | none => exact absurd ((minByKeyFirst_eq_none _ _ _).mp h2) hne
    | some t =>
      obtain ⟨hmem, hall⟩ :=
        minByKeyFirst_spec ltKey3 findTieKey ltKey3_irrefl ltKey3_trans ltKey3_ntrans _ t h2
      refine ⟨t, ?_, hmem, hall⟩
      rw [hred, h1, h2]
  · intro hs ht hne
    have h1 : minByKeyFirst ltKey3 findTieKey (findSuffixCands catalog id) = none :=
      (minByKeyFirst_eq_none _ _ _).mpr hs
    have h2 : minByKeyFirst ltKey3 findTieKey (findTitleCands catalog id) = none :=
      (minByKeyFirst_eq_none _ _ _).mpr ht
    cases h3 : minByKeyFirst ltKey3 findTieKey (findArgCands catalog id) with
    | none => exact absurd ((minByKeyFirst_eq_none _ _ _).mp h3) hne
    | some t =>
      obtain ⟨hmem, hall⟩ :=
        minByKeyFirst_spec ltKey3 findTieKey ltKey3_irrefl ltKey3_trans ltKey3_ntrans _ t h3
      refine ⟨t, ?_, hmem, hall⟩
      rw [hred, h1, h2, h3]
  · intro hs ht ha
    rw [hred, (minByKeyFirst_eq_none _ _ _).mpr hs, (minByKeyFirst_eq_none _ _ _).mpr ht,
      (minByKeyFirst_eq_none _ _ _).mpr ha]

theorem c4_witness :
    findSuffixCands mergeCat "merge" ≠ [] ∧
      ∃ t, findTemplate mergeCat "merge" = some t ∧ t ∈ findSuffixCands mergeCat "merge" ∧
        ∀ u ∈ findSuffixCands mergeCat "merge",
          ltKey3 (findTieKey u) (findTieKey t) = false :=
  ⟨by decide, (c4_find_staged mergeCat "merge" (by decide) (by decide)).1 (by decide)⟩

/-- C5: in the parameter-default loop of `resolve_with_lookup`, a parameter
not already bound under its id or its `$`-prefixed alias whose default-value
expansion fails with MissingPlaceholder is stored with its raw default text
and resolution continues; any other expansion error — and any error from the
loop — aborts the whole resolution with that error. -/
theorem c5_default_fallback (lookup : String → Except GitLgError (Option String))
    (p : ActionParam) (rest : List ActionParam) (tbl : PMap)
    (hnb : (pmContains tbl p.id || pmContains tbl ("$" ++ p.id)) = false) :
    (∀ k, expandPlaceholders p.default_value tbl lookup = .error (.MissingPlaceholder k) →
      applyParamDefaults lookup (p :: rest) tbl =
        applyParamDefaults lookup rest (pmInsert tbl p.id p.default_value)) ∧
    (∀ e, expandPlaceholders p.default_value tbl lookup = .error e →
      (∀ k, e ≠ .MissingPlaceholder k) →
      applyParamDefaults lookup (p :: rest) tbl = .error e) ∧
    (∀ (shlexSplit : String → Option (List String)) (catalog : ActionCatalog)
        (request : ActionRequest) (template : ActionTemplate) (e : GitLgError),
      findTemplate catalog request.template_id = some template →
      applyParamDefaults lookup template.params
          (pmExtend (toPlaceholderMap request.context) request.params) = .error e →
      resolveWithLookup shlexSplit catalog request lookup = .error e) := by
  have hnb' : ¬ (pmContains tbl p.id || pmContains tbl ("$" ++ p.id)) = true := by
    simp [hnb]
  refine ⟨?_, ?_, ?_⟩
  · intro k hk
    simp only [applyParamDefaults]
    rw [if_neg hnb', hk]
  · intro e he hne
    simp only [applyParamDefaults]
    rw [if_neg hnb', he]
    cases e with
    | MissingPlaceholder k => exact absurd rfl (hne k)
    | Io s => rfl
    | GitCommandFailed a b c d f => rfl
    | InvalidRepository s => rfl
    | Parse s => rfl
    | State s => rfl
  · intro shlexSplit catalog request template e hfind happ
    simp only [resolveWithLookup]
    rw [hfind]
    simp only [happ]

theorem c5_witness :
    ((pmContains ([] : PMap) "1" || pmContains ([] : PMap) ("$" ++ "1")) = false) ∧
      applyParamDefaults (fun _ => .ok none)
          [⟨"1", "{NOPE}", none, false, false⟩] [] =
        applyParamDefaults (fun _ => .ok none) [] (pmInsert [] "1" "{NOPE}") :=
  ⟨by decide,
    (c5_default_fallback (fun _ => .ok none) ⟨"1", "{NOPE}", none, false, false⟩ [] []
        (by decide)).1 "NOPE" (by decide)⟩

/-- C6: when the short-id chooser returns a template id, that template is one
of the staged candidates and minimizes `(unsatisfiable-placeholder count,
shell_script, params.len(), args.len())` over all candidates, where the count
scans `\x7bNAME\x7d` groups in the argument tokens, raw argument string and
parameter defaults, skipping the `GIT_CONFIG:`/`GIT_EXEC:` namespaces and
names bound in the merged context-plus-params table. -/
theorem c6_short_id_scoring (catalog : ActionCatalog) (short_id : String)
    (context : ActionContext) (params : PMap) (tid : String)
    (hsome : chooseTemplateForShortId catalog short_id context params = some tid) :
    ∃ t, t ∈ candidatesForShortId catalog short_id ∧ tid = t.id ∧
      ∀ u ∈ candidatesForShortId catalog short_id,
        ltKey4 (shortIdKey (pmExtend (toPlaceholderMap context) params) u)
          (shortIdKey (pmExtend (toPlaceholderMap context) params) t) = false := by
  simp only [chooseTemplateForShortId] at hsome
  by_cases hc : candidatesForShortId catalog short_id = []
  · rw [if_pos hc] at hsome
    cases hsome
  · rw [if_neg hc] at hsome
    cases hmin : minByKeyFirst ltKey4
        (shortIdKey (pmExtend (toPlaceholderMap context) params))
        (candidatesForShortId catalog short_id) with
    | none => rw [hmin] at hsome; cases hsome
    | some t =>
      rw [hmin] at hsome
      simp only [Option.map_some', Option.some.injEq] at hsome
      obtain ⟨hmem, hall⟩ :=
        minByKeyFirst_spec ltKey4 _ ltKey4_irrefl ltKey4_trans ltKey4_ntrans _ t hmin
      exact ⟨t, hmem, hsome.symm, hall⟩

theorem c6_witness :
    chooseTemplateForShortId scoreCat "merge" branchOnlyCtx [] = some "branch:2:merge" ∧
      ∃ t, t ∈ candidatesForShortId scoreCat "merge" ∧ "branch:2:merge" = t.id ∧
        ∀ u ∈ candidatesForShortId scoreCat "merge",
          ltKey4 (shortIdKey (pmExtend (toPlaceholderMap branchOnlyCtx) []) u)
            (shortIdKey (pmExtend (toPlaceholderMap branchOnlyCtx) []) t) = false :=
  ⟨by decide,
    c6_short_id_scoring scoreCat "merge" branchOnlyCtx [] "branch:2:merge" (by decide)⟩

end GitLg
